import Mathlib

/-!
Verification of the tify translation pipeline (content script, src/unnamed/part_000).

Shallow embedding conventions:
* JS strings are `List Char`; `charCodeAt` is `Char.toNat`.
* JS numbers used as 32-bit integers (the cache hash) are `Int` with an
  explicit wrap `toInt32`; fractional arithmetic (similarity ratios,
  backoff multipliers) uses `ℚ`.
* DOM accessors that the segmentation heuristics read
  (`findContentContainer`, `getDepth` of `calculateDOMDistance`,
  `getBoundingClientRect` centers, `textContent`) are recorded as fields of
  the `Elem` record; the algorithms over them are translated line by line.
* `calculateVisualDistance` takes a square root only to compare against
  100; the embedding compares squared distances against 10000, which is
  equivalent since `Real.sqrt` is monotone on nonnegatives.
* The request pool is embedded as a small-step transition system with
  nondeterministic task completion, matching the promise semantics of the
  source (tasks settle in any order once started).
-/

namespace Tify

/-! ## JS string primitives -/

/-- JS `\s` whitespace (the ASCII part, which is all the sources use). -/
def isWs (c : Char) : Bool :=
  c = ' ' ∨ c = '\t' ∨ c = '\n' ∨ c = '\r' ∨ c = '\x0b' ∨ c = '\x0c'

/-- JS `String.prototype.trim`. -/
def trim (l : List Char) : List Char :=
  ((l.dropWhile isWs).reverse.dropWhile isWs).reverse

/-- JS `text.split(/\s+/)`: fields between maximal whitespace runs,
with an empty leading/trailing field when the text starts/ends with
whitespace, and `[""]` for the empty string. The boolean is true while
scanning inside a separator run (the field before it already emitted). -/
def splitWsGo : List Char → List Char → Bool → List (List Char)
  | [], cur, false => [cur.reverse]
  | [], _, true => [[]]
  | c :: rest, cur, false =>
    if isWs c then cur.reverse :: splitWsGo rest [] true
    else splitWsGo rest (c :: cur) false
  | c :: rest, cur, true =>
    if isWs c then splitWsGo rest cur true
    else splitWsGo rest [c] false

def splitWs (l : List Char) : List (List Char) := splitWsGo l [] false

/-! ## Cache Store (`generateCacheKey`, `cacheTranslation`,
`cleanupTranslationCache`, `getCachedTranslation`) -/

/-- The translation settings fields read by `generateCacheKey`. -/
structure Settings where
  aiModel : List Char
  targetLanguage : List Char
  sourceLanguage : List Char
deriving DecidableEq

/-- JSON string escaping for the characters that can occur in the inputs
considered here (quote and backslash). -/
def jsonEscape (l : List Char) : List Char :=
  l.flatMap fun c => if c = '"' ∨ c = '\\' then ['\\', c] else [c]

def jsonStrLit (l : List Char) : List Char :=
  '"' :: jsonEscape l ++ ['"']

/-- `JSON.stringify(keyData)` for the object literal built in
`generateCacheKey`: keys in insertion order
text, aiModel, targetLanguage, sourceLanguage. -/
def keyDataJson (text : List Char) (s : Settings) : List Char :=
  Char.ofNat 123 ::
    ("\"text\":".data ++ jsonStrLit (trim text) ++
     ",\"aiModel\":".data ++ jsonStrLit s.aiModel ++
     ",\"targetLanguage\":".data ++ jsonStrLit s.targetLanguage ++
     ",\"sourceLanguage\":".data ++ jsonStrLit s.sourceLanguage) ++
  [Char.ofNat 125]

/-- Wrap to a signed 32-bit integer (JS `x & x` / `ToInt32`). -/
def toInt32 (x : Int) : Int := (x + 2 ^ 31) % 2 ^ 32 - 2 ^ 31

/-- One step of the loop body
`hash = ((hash << 5) - hash) + char; hash = hash & hash`.
`hash` is already a 32-bit value on entry, `<< 5` wraps at 32 bits, the
subtraction and addition are exact in doubles at this magnitude, and the
final `& hash` wraps again. -/
def hashStep (h : Int) (c : Char) : Int :=
  toInt32 (toInt32 (h * 32) - h + c.toNat)

def hashString (l : List Char) : Int := l.foldl hashStep 0

def base36digit (n : Nat) : Char :=
  if n < 10 then Char.ofNat (48 + n) else Char.ofNat (87 + n)

/-- Base-36 digits of `n`, most significant first; the fuel bounds the
digit count. -/
def natToBase36Go : Nat → Nat → List Char
  | 0, _ => []
  | fuel + 1, n =>
    if n = 0 then [] else natToBase36Go fuel (n / 36) ++ [base36digit (n % 36)]

/-- Eight base-36 digits cover every 32-bit value (`36 ^ 8 > 2 ^ 32`),
which is the only range this is applied to. -/
def natToBase36 (n : Nat) : List Char := natToBase36Go 8 n

/-- JS `Number.prototype.toString(36)` on a 32-bit integer. -/
def intToBase36 (x : Int) : List Char :=
  if x = 0 then ['0']
  else if x < 0 then '-' :: natToBase36 x.natAbs
  else natToBase36 x.toNat

/-- `generateCacheKey(text, settings)`. -/
def generateCacheKey (text : List Char) (s : Settings) : List Char :=
  intToBase36 (hashString (keyDataJson text s))

/-- The translation cache: a JS `Map` in insertion order, keys distinct.
The stored value is the translation; the timestamp/accessCount metadata
fields are not read by any behavior under verification (eviction is by
insertion order, not by the metadata). -/
abbrev Cache := List (List Char × List Char)

/-- JS `Map.prototype.set`: update in place if the key exists (keeping its
insertion position), else append. -/
def mapSet (m : Cache) (k v : List Char) : Cache :=
  if m.any (fun p => p.1 = k) then
    m.map (fun p => if p.1 = k then (k, v) else p)
  else m ++ [(k, v)]

def cacheMaxSize : Nat := 1000

/-- `cleanupTranslationCache`: when over the maximum, delete the
oldest-inserted entries (the front of the insertion-ordered map) until the
size is back to the maximum. -/
def cleanupTranslationCache (m : Cache) : Cache :=
  if m.length > cacheMaxSize then m.drop (m.length - cacheMaxSize) else m

/-- `cacheTranslation(text, settings, translation)`. -/
def cacheTranslation (m : Cache) (text : List Char) (s : Settings)
    (translation : List Char) : Cache :=
  let m' := mapSet m (generateCacheKey text s) translation
  if m'.length > cacheMaxSize then cleanupTranslationCache m' else m'

/-- `getCachedTranslation(text, settings)`; the access-statistics update on
a hit does not affect the returned value. -/
def getCachedTranslation (m : Cache) (text : List Char) (s : Settings) :
    Option (List Char) :=
  (m.find? (fun p => p.1 = generateCacheKey text s)).map Prod.snd

/-- Run a sequence of puts from the empty cache. -/
def runPuts (ops : List (List Char × Settings × List Char)) : Cache :=
  ops.foldl (fun m o => cacheTranslation m o.1 o.2.1 o.2.2) []

/-! ## Retry Policy (`requestTranslationWithAdvancedRetry`) -/

/-- The error classes produced by `classifyError`. -/
inductive ErrType
  | network
  | quota
  | api
  | timeout
  | context
  | unknown
deriving DecidableEq

def maxRetries : Nat := 3

def retryDelays : List Nat := [1000, 2000, 4000]

/-- `shouldRetry(errorType, retryCount)`. -/
def shouldRetry (e : ErrType) (retryCount : Nat) : Bool :=
  match e with
  | .context => false
  | .quota => retryCount < 2
  | .network => retryCount < maxRetries
  | .timeout => retryCount < maxRetries
  | .api => retryCount < 2
  | .unknown => retryCount < 1

/-- `retryDelays[attempt] || retryDelays[retryDelays.length - 1]` (every
entry is nonzero, so the fallback fires exactly on out-of-range indices). -/
def baseBackoff (attempt : Nat) : Nat :=
  retryDelays.getD attempt (retryDelays.getD (retryDelays.length - 1) 0)

/-- The wait imposed before the next attempt after a failure of class `e`
at 0-based attempt `attempt`: quota doubles the base delay, network scales
it by 1.5, every other class keeps the base delay. -/
def retryDelayFor (e : ErrType) (attempt : Nat) : ℚ :=
  let delay : ℚ := (baseBackoff attempt : ℚ)
  if e = ErrType.quota then delay * 2
  else if e = ErrType.network then delay * (3 / 2)
  else delay

/-- The retry loop `for (attempt = 0; attempt <= maxRetries; attempt++)`,
counting the attempts performed. `outcome n` is what the n-th attempt of
the external call does: `none` is success, `some e` a failure classified
as `e`. The loop body throws (stopping with `attempt + 1` attempts made)
when the attempt is the last one or `shouldRetry` declines. The fuel
argument is `maxRetries + 1`, the exact number of loop iterations. -/
def runRetryGo (outcome : Nat → Option ErrType) : Nat → Nat → Nat
  | 0, attempt => attempt
  | fuel + 1, attempt =>
    match outcome attempt with
    | none => attempt + 1
    | some e =>
      if attempt = maxRetries ∨ shouldRetry e attempt = false then attempt + 1
      else runRetryGo outcome fuel (attempt + 1)

/-- Total number of attempts performed by
`requestTranslationWithAdvancedRetry` for a given outcome sequence. -/
def runRetry (outcome : Nat → Option ErrType) : Nat :=
  runRetryGo outcome (maxRetries + 1) 0

/-! ## Request Pool (`TranslationPool.addTask` / `processQueue`)

The pool is embedded as a transition system. Task identities are natural
numbers (for the orchestrator of `translatePage`, the submission order is
the segment order, so for split segments of one group the identity can be
read as the `partIndex`). A state records the tasks not yet submitted (in
submission order), the FIFO queue, the multiset of running tasks, and the
logs of start and completion events. `processQueue` starts the queue head
only when `activeRequests < maxConcurrency`; a started task settles at an
arbitrary later step (its external call has arbitrary latency), at which
point its translation is applied and `activeRequests` is decremented. -/

structure PoolState where
  maxConcurrency : Nat
  pending : List Nat
  queue : List Nat
  running : List Nat
  startLog : List Nat
  compLog : List Nat
deriving DecidableEq

/-- One transition of the pool. -/
inductive PoolStep : PoolState → PoolState → Prop
  | submit (s : PoolState) (t : Nat) (rest : List Nat) :
      s.pending = t :: rest →
      PoolStep s { s with pending := rest, queue := s.queue ++ [t] }
  | start (s : PoolState) (t : Nat) (rest : List Nat) :
      s.running.length < s.maxConcurrency →
      s.queue = t :: rest →
      PoolStep s { s with
        queue := rest
        running := s.running ++ [t]
        startLog := s.startLog ++ [t] }
  | complete (s : PoolState) (t : Nat) :
      t ∈ s.running →
      PoolStep s { s with
        running := s.running.erase t
        compLog := s.compLog ++ [t] }

/-- Reflexive-transitive closure of `PoolStep`. -/
inductive PoolReach : PoolState → PoolState → Prop
  | refl (s : PoolState) : PoolReach s s
  | step {s t u : PoolState} : PoolReach s t → PoolStep t u → PoolReach s u

/-- The state at job start: `translatePage` is about to submit `tasks` in
order; nothing queued, running, started or completed. -/
def initPool (maxC : Nat) (tasks : List Nat) : PoolState :=
  ⟨maxC, tasks, [], [], [], []⟩

/-! ## Segment Builder (`optimizeContentSegmentation`) -/

/-- A content node as the segmentation heuristics read it.
`containerId` is the identity of `findContentContainer(el)` (the nearest
container ancestor, an external DOM computation the algorithms only
compare for equality), `depth` is `getDepth(el)` of
`calculateDOMDistance`, `cx`/`cy` the bounding-rect center of
`calculateVisualDistance`, `text` the node's `textContent`. -/
structure Elem where
  id : Nat
  containerId : Nat
  depth : Nat
  cx : Int
  cy : Int
  text : List Char
deriving DecidableEq

/-- `calculateDOMDistance`: absolute difference of the two depths. -/
def calculateDOMDistance (e1 e2 : Elem) : Nat :=
  ((e1.depth : Int) - (e2.depth : Int)).natAbs

/-- `calculateTextSimilarity`: shared words (longer than 2 chars) over the
longer token count. -/
def calculateTextSimilarity (t1 t2 : List Char) : ℚ :=
  let words1 := splitWs (t1.map Char.toLower)
  let words2 := splitWs (t2.map Char.toLower)
  let commonWords := words1.filter fun w =>
    decide (w.length > 2) && words2.contains w
  let maxLength := max words1.length words2.length
  if maxLength > 0 then (commonWords.length : ℚ) / (maxLength : ℚ) else 0

/-- Squared center-to-center distance; `calculateVisualDistance` is its
square root, used only in the comparison against 100. -/
def calculateVisualDistanceSq (e1 e2 : Elem) : Int :=
  (e1.cx - e2.cx) ^ 2 + (e1.cy - e2.cy) ^ 2

/-- `areElementsRelated`: returns false outright when the DOM distance
exceeds 3, otherwise the three-way disjunction. -/
def areElementsRelated (e1 e2 : Elem) : Bool :=
  let domDistance := calculateDOMDistance e1 e2
  if domDistance > 3 then false
  else
    let textSimilarity := calculateTextSimilarity e1.text e2.text
    let visualSq := calculateVisualDistanceSq e1 e2
    decide (domDistance ≤ 2) ||
      decide (textSimilarity > 3 / 10) ||
      (decide (visualSq < 100 ^ 2) && decide (domDistance ≤ 3))

inductive SegKind
  | single
  | grouped
  | merged
  | split
deriving DecidableEq

/-- A segment. `partIndex` and `groupId` are meaningful for `split`
segments only: `groupId` stands for the `originalGroup` back-reference
(reference identity, embedded as the group's position in the list
`splitLongTextSegments` receives). -/
structure Seg where
  kind : SegKind
  elements : List Elem
  text : List Char
  partIndex : Nat
  groupId : Nat
deriving DecidableEq

/-- `.join('\n\n')`. -/
def joinBlank : List (List Char) → List Char
  | [] => []
  | [t] => t
  | t :: u :: rest => t ++ '\n' :: '\n' :: joinBlank (u :: rest)

/-- The loop body of `groupElementsByContainer`, threading the `visited`
set and the groups accumulator. The related-elements filter ranges over
the whole input list, exactly as in the source. -/
def gebcGo (allElements : List Elem) :
    List Elem → List Elem → List Seg → List Seg
  | [], _, acc => acc
  | e :: rest, visited, acc =>
    if e ∈ visited then gebcGo allElements rest visited acc
    else
      let relatedElements := allElements.filter fun el =>
        !(decide (el ∈ visited)) &&
          decide (el.containerId = e.containerId) &&
          areElementsRelated e el
      if relatedElements.length > 1 then
        let combinedText :=
          joinBlank (((relatedElements.map fun el => trim el.text).filter
            fun t => t.length > 0))
        if combinedText.length > 0 then
          gebcGo allElements rest (visited ++ relatedElements)
            (acc ++ [⟨SegKind.grouped, relatedElements, combinedText, 0, 0⟩])
        else gebcGo allElements rest visited acc
      else
        let t := trim e.text
        if t.length > 0 then
          gebcGo allElements rest (visited ++ [e])
            (acc ++ [⟨SegKind.single, [e], t, 0, 0⟩])
        else gebcGo allElements rest visited acc

/-- `groupElementsByContainer(elements)`. -/
def groupElementsByContainer (elements : List Elem) : List Seg :=
  gebcGo elements elements [] []

/-- Flushing the current batch in `mergeShortTextSegments`: a batch of two
or more becomes one `merged` segment, a batch of one degrades to itself. -/
def flushBatch : List Seg → List Seg
  | [] => []
  | [g] => [g]
  | g :: h :: rest =>
    [⟨SegKind.merged, (g :: h :: rest).flatMap Seg.elements,
      joinBlank ((g :: h :: rest).map Seg.text), 0, 0⟩]

/-- The loop of `mergeShortTextSegments` (thresholds: minimum segment
length 50, batch cap 500). -/
def mergeGo : List Seg → List Seg → Nat → List Seg → List Seg
  | [], batch, _, acc => acc ++ flushBatch batch
  | g :: rest, batch, batchLen, acc =>
    if g.text.length < 50 ∧ batchLen < 500 then
      mergeGo rest (batch ++ [g]) (batchLen + g.text.length) acc
    else
      mergeGo rest [] 0 (acc ++ flushBatch batch ++ [g])

def mergeShortTextSegments (groups : List Seg) : List Seg :=
  mergeGo groups [] 0 []

/-- The terminator class of `splitIntoSentences`:
`/[.!?;。！？；]/`. -/
def sentenceEnder (c : Char) : Bool :=
  c = '.' ∨ c = '!' ∨ c = '?' ∨ c = ';' ∨ c = '。' ∨ c = '！' ∨ c = '？' ∨ c = '；'

/-- JS `text.split(/[.!?;。！？；]/)`: every terminator ends a field and is
dropped. -/
def splitOnEnders : List Char → List Char → List (List Char)
  | [], cur => [cur.reverse]
  | c :: rest, cur =>
    if sentenceEnder c then cur.reverse :: splitOnEnders rest []
    else splitOnEnders rest (c :: cur)

/-- The fixed-size fallback of `splitIntoSentences`: 200-char chunks. -/
def chunkGo (l : List Char) : List (List Char) :=
  if h : l = [] then [] else l.take 200 :: chunkGo (l.drop 200)
termination_by l.length
decreasing_by
  simp only [List.length_drop]
  exact Nat.sub_lt (List.length_pos.mpr h) (by decide)

/-- `splitIntoSentences(text)`. -/
def splitIntoSentences (text : List Char) : List (List Char) :=
  let sentences := (splitOnEnders text []).filter fun s => (trim s).length > 0
  if sentences.length < 2 ∧ text.length > 500 then chunkGo text
  else sentences

/-- The accumulation loop of `splitLongTextSegments` over the sentence
list (maximum segment length 1000): the trimmed accumulated run is pushed
whenever the next sentence would overflow, sentences are joined with a
single space, and a nonempty trimmed remainder is pushed at the end. -/
def gatherSplitParts : List (List Char) → List Char → List (List Char)
  | [], cur => if (trim cur).length > 0 then [trim cur] else []
  | s :: rest, cur =>
    if cur.length + s.length > 1000 ∧ cur.length > 0 then
      trim cur :: gatherSplitParts rest s
    else
      gatherSplitParts rest (if cur.length = 0 then s else cur ++ ' ' :: s)

/-- `splitLongTextSegments(groups)`: groups of at most 1000 chars pass
through; longer ones are replaced by `split` parts that all carry the
group's element list, with `partIndex` equal to the number of parts
already emitted for that group. -/
def splitLongTextSegments (groups : List Seg) : List Seg :=
  groups.enum.flatMap fun gi =>
    if gi.2.text.length ≤ 1000 then [gi.2]
    else
      (gatherSplitParts (splitIntoSentences gi.2.text) []).enum.map fun pt =>
        ⟨SegKind.split, gi.2.elements, pt.2, pt.1, gi.1⟩

/-- `optimizeContentSegmentation(elements)`. -/
def optimizeContentSegmentation (elements : List Elem) : List Seg :=
  splitLongTextSegments (mergeShortTextSegments (groupElementsByContainer elements))

/-- Number of output segments whose owned-node list contains `x`. -/
def ownedCount (x : Elem) (segs : List Seg) : Nat :=
  (segs.filter fun s => decide (x ∈ s.elements)).length

/-! ## Reassembly Engine (`splitTranslationByRatio`,
`findSuitableCutPoint`) -/

/-- The terminator class of `findSuitableCutPoint`: `/[.!?。！？]/`
(no semicolons, unlike `splitIntoSentences`). -/
def cutEnder (c : Char) : Bool :=
  c = '.' ∨ c = '!' ∨ c = '?' ∨ c = '。' ∨ c = '！' ∨ c = '？'

/-- Left-to-right minimization of `|i - target|` with strict improvement,
as both scanning loops of `findSuitableCutPoint` do: the earliest index at
minimal distance wins. -/
def pickBest (target : Nat) (l : List Nat) : Option Nat :=
  l.foldl
    (fun acc i =>
      match acc with
      | none => some i
      | some j =>
        if ((i : Int) - target).natAbs < ((j : Int) - target).natAbs then some i
        else acc)
    none

/-- `findSuitableCutPoint(text, targetLength)`. The sentence-terminator
scan walks every match of the regex and keeps those inside the window;
the whitespace fallback scans indices `startSearch..endSearch` (an index
one past the end reads `undefined`, never a space). -/
def findSuitableCutPoint (text : List Char) (targetLength : Nat) : Nat :=
  if targetLength ≥ text.length then text.length
  else
    let searchRange := min 50 (text.length / 10)
    let startSearch := targetLength - searchRange
    let endSearch := min text.length (targetLength + searchRange)
    let enderIdxs := (List.range text.length).filter fun i =>
      decide (startSearch ≤ i) && decide (i ≤ endSearch) &&
        cutEnder (text.getD i ' ')
    match pickBest targetLength enderIdxs with
    | some i => i + 1
    | none =>
      let wsIdxs := (List.range (endSearch + 1)).filter fun i =>
        decide (startSearch ≤ i) &&
          (decide (text.getD i 'x' = ' ') || decide (text.getD i 'x' = '\n'))
      match pickBest targetLength wsIdxs with
      | some i => i
      | none => targetLength

/-- JS `Math.round` on the nonnegative rational `num / den`:
half-up rounding. -/
def jsRound (num den : Nat) : Nat := (2 * num + den) / (2 * den)

/-- The cutting loop of `splitTranslationByRatio`: every member but the
last cuts `partLength = round(translation.length * ratio)` characters off
the remaining translation at a suitable cut point; the last member takes
the whole remainder. `full` is the original translation (whose length the
ratios are taken against) and `total` the total original length. -/
def strGo (full : List Char) (total : Nat) :
    List Char → List (List Char) → List (List Char)
  | _, [] => []
  | remaining, [_] => [remaining]
  | remaining, t :: u :: ts =>
    let partLength := jsRound (full.length * t.length) total
    let cutPoint := findSuitableCutPoint remaining partLength
    remaining.take cutPoint :: strGo full total (remaining.drop cutPoint) (u :: ts)

/-- `splitTranslationByRatio(translation, originalTexts)`. -/
def splitTranslationByRatio (translation : List Char)
    (originalTexts : List (List Char)) : List (List Char) :=
  let totalLength := (originalTexts.map List.length).sum
  if totalLength = 0 then [translation]
  else strGo translation totalLength translation originalTexts

/-! ## Concrete inputs used by the counterexamples and witnesses -/

/-- A settings value; any fixed settings work for the collision. -/
def sDemo : Settings := ⟨"gpt-4".data, "zh-CN".data, "auto".data⟩

/-- Four content nodes: `demoA` and `demoC` share container 7 at equal
depth (so the heuristic groups them), `demoB` sits alone in container 8,
and `demoD` sits alone in container 9 with a 1002-char two-sentence
text that forces the long-segment split. -/
def demoA : Elem := ⟨0, 7, 5, 0, 0, List.replicate 30 'a'⟩

def demoB : Elem := ⟨1, 8, 5, 0, 0, List.replicate 4 'b'⟩

def demoC : Elem := ⟨2, 7, 5, 0, 0, List.replicate 30 'c'⟩

def demoD : Elem := ⟨3, 9, 5, 0, 0, List.replicate 501 'd' ++ '.' :: List.replicate 500 'd'⟩

def demoElems : List Elem := [demoA, demoB, demoC, demoD]

/-- Two lone nodes in different containers: two `single` segments. -/
def wElem1 : Elem := ⟨0, 0, 0, 0, 0, "abc".data⟩

def wElem2 : Elem := ⟨1, 1, 0, 0, 0, "def".data⟩

/-- Two elements at depth difference 4 with identical (perfect-similarity)
texts. -/
def simE1 : Elem := ⟨0, 0, 0, 0, 0, "hello world program".data⟩

def simE2 : Elem := ⟨1, 0, 4, 0, 0, "hello world program".data⟩

/-- A 1003-char group text: a 1001-char sentence, a terminator, and a
1-char sentence. -/
def gCex : Seg := ⟨SegKind.grouped, [], List.replicate 1001 'a' ++ '.' :: List.replicate 1 'b', 0, 0⟩

/-- One 119-char sentence body. -/
def s119 : List Char := List.replicate 119 'a'

/-- Scenario B input: one paragraph of 2400 chars made of 20 sentences of
120 chars each (119 letters and a terminating period). -/
def para2400 : List Char := (List.replicate 20 (s119 ++ ['.'])).flatten

def g2400 : Seg := ⟨SegKind.grouped, [], para2400, 0, 0⟩

/-- The accumulated text run after `k` sentences of `s119` joined by
single spaces, exactly as `splitLongTextSegments` builds it. -/
def spart : Nat → List Char
  | 0 => []
  | 1 => s119
  | k + 2 => spart (k + 1) ++ ' ' :: s119

/-- An outcome sequence where every attempt fails with a network error. -/
def allNetwork : Nat → Option ErrType := fun _ => some ErrType.network

/-- An outcome sequence where every attempt fails with a context error. -/
def allContext : Nat → Option ErrType := fun _ => some ErrType.context

/-! # Theorems -/

/-! ## C10: the cache key is not injective -/

set_option maxRecDepth 40000 in
/-- C10: the 32-bit base-36 cache key function is not injective: the
distinct texts "Aa" and "BB" under identical settings hash to the same
key, and a cache get for "BB" returns the translation stored by a put for
"Aa". -/
theorem cacheKey_collision :
    "Aa".data ≠ "BB".data ∧
    generateCacheKey ("Aa".data) sDemo = generateCacheKey ("BB".data) sDemo ∧
    getCachedTranslation (cacheTranslation [] ("Aa".data) sDemo ("hola".data))
      ("BB".data) sDemo = some ("hola".data) := by
  refine ⟨by decide, by decide, by decide⟩

/-! ## C5: backoff values -/

/-- C5 counterexample: after a timeout-classified failure at attempt 0 the
imposed wait is the base backoff 1000 ms, not 1000 × 1.5 as the claim
states for timeouts. -/
theorem timeout_backoff_counterexample :
    retryDelayFor ErrType.timeout 0 = 1000 ∧
    retryDelayFor ErrType.timeout 0 ≠ (1000 : ℚ) * (3 / 2) := by
  have h : retryDelayFor ErrType.timeout 0 = 1000 := rfl
  rw [h]
  norm_num

/-- C5 amended: after a network-classified failure the wait is the base
backoff for the attempt (1000, 2000, 4000 ms) times 1.5, but after a
timeout-classified failure it is the unscaled base backoff (only quota
failures get the other multiplier, 2). -/
theorem backoff_values (attempt : Nat) :
    retryDelayFor ErrType.network attempt = (baseBackoff attempt : ℚ) * (3 / 2) ∧
    retryDelayFor ErrType.timeout attempt = (baseBackoff attempt : ℚ) ∧
    retryDelayFor ErrType.quota attempt = (baseBackoff attempt : ℚ) * 2 := by
  refine ⟨?_, ?_, ?_⟩ <;> simp [retryDelayFor]

/-! ## C6: the relatedness heuristic -/

/-- C6 counterexample: two elements whose texts are identical (similarity
1 > 0.3) but whose tree depths differ by 4 are judged unrelated — the
similarity disjunct does not override the depth guard. -/
theorem related_similarity_counterexample :
    calculateTextSimilarity simE1.text simE2.text > 3 / 10 ∧
    areElementsRelated simE1 simE2 = false := by
  constructor
  · have hcommon :
        ((splitWs (simE1.text.map Char.toLower)).filter fun w =>
          decide (w.length > 2) &&
            (splitWs (simE2.text.map Char.toLower)).contains w).length = 3 := by
      rfl
    have hmax :
        max (splitWs (simE1.text.map Char.toLower)).length
          (splitWs (simE2.text.map Char.toLower)).length = 3 := by
      rfl
    simp only [calculateTextSimilarity]
    rw [hcommon, hmax]
    norm_num
  · decide

/-- C6 amended: two nodes are related iff the tree-depth difference is at
most 3 AND (depth difference ≤ 2, OR text similarity > 0.3, OR squared
visual distance < 100², i.e. distance < 100 px). -/
theorem areElementsRelated_iff (e1 e2 : Elem) :
    areElementsRelated e1 e2 =
      (decide (calculateDOMDistance e1 e2 ≤ 3) &&
        (decide (calculateDOMDistance e1 e2 ≤ 2) ||
          decide (calculateTextSimilarity e1.text e2.text > 3 / 10) ||
          (decide (calculateVisualDistanceSq e1 e2 < 100 ^ 2) &&
            decide (calculateDOMDistance e1 e2 ≤ 3)))) := by
  unfold areElementsRelated
  by_cases h : calculateDOMDistance e1 e2 > 3
  · simp [h, Nat.not_le.mpr h]
  · simp [h, Nat.not_lt.mp h]

/-! ## C4: attempt counts -/

/-- The retry loop never performs more than `fuel` further attempts. -/
theorem runRetryGo_le (f : Nat → Option ErrType) :
    ∀ (fuel attempt : Nat), runRetryGo f fuel attempt ≤ attempt + fuel := by
  intro fuel
  induction fuel with
  | zero => intro attempt; simp [runRetryGo]
  | succ n ih =>
    intro attempt
    cases hf : f attempt with
    | none => simp [runRetryGo, hf]
    | some e =>
      simp only [runRetryGo, hf]
      split
      · omega
      · have := ih (attempt + 1)
        omega

/-- C4: a request whose every failure classifies as network is attempted
at most `maxRetries + 1 = 4` times; when every attempt fails as network it
is attempted exactly 4 times; and a request whose first attempt fails as
context-invalid is attempted exactly once. -/
theorem retry_attempt_counts (f : Nat → Option ErrType) :
    ((∀ n e, f n = some e → e = ErrType.network) → runRetry f ≤ 4) ∧
    ((∀ n, f n = some ErrType.network) → runRetry f = 4) ∧
    (f 0 = some ErrType.context → runRetry f = 1) := by
  refine ⟨fun _ => ?_, fun h => ?_, fun h => ?_⟩
  · simpa using runRetryGo_le f (maxRetries + 1) 0
  · simp [runRetry, runRetryGo, h 0, h 1, h 2, h 3, shouldRetry, maxRetries]
  · simp [runRetry, runRetryGo, h, shouldRetry]

/-- Witness for C4 at the all-network and all-context outcome
sequences. -/
theorem retry_attempt_counts_witness :
    runRetry allNetwork ≤ 4 ∧ runRetry allNetwork = 4 ∧ runRetry allContext = 1 :=
  ⟨(retry_attempt_counts allNetwork).1 (fun _ e h => (Option.some.inj h).symm),
   (retry_attempt_counts allNetwork).2.1 (fun _ => rfl),
   (retry_attempt_counts allContext).2.2 rfl⟩

/-! ## C7: proportional partitioning -/

/-- C7 counterexample: with a non-empty member list whose texts are all
empty (total length 0), `splitTranslationByRatio` returns a single part,
not one part per member. -/
theorem ratio_empty_counterexample :
    splitTranslationByRatio ("ab".data) [[], []] = ["ab".data] ∧
    (splitTranslationByRatio ("ab".data) [[], []]).length ≠
      ([[], []] : List (List Char)).length := by
  refine ⟨by decide, by decide⟩

/-- The cutting loop returns one part per member and concatenates back to
the remaining translation, whatever cut points are chosen. -/
theorem strGo_spec (full : List Char) (total : Nat) :
    ∀ (ts : List (List Char)) (remaining : List Char), ts ≠ [] →
      (strGo full total remaining ts).length = ts.length ∧
      (strGo full total remaining ts).flatten = remaining := by
  intro ts
  induction ts with
  | nil => intro remaining h; exact absurd rfl h
  | cons t ts ih =>
    intro remaining _
    cases ts with
    | nil => simp [strGo]
    | cons u ts' =>
      have h := ih (remaining.drop
        (findSuitableCutPoint remaining (jsRound (full.length * t.length) total)))
        (by simp)
      constructor
      · simp [strGo, h.1]
      · simp only [strGo, List.flatten_cons, h.2]
        exact List.take_append_drop _ _

/-- C7 amended: for every translation and non-empty member list whose
total original length is positive, the partition has exactly one part per
member and its concatenation equals the translation exactly (the final
member absorbing the remainder); when the total original length is zero
the whole translation is returned as a single part. -/
theorem splitTranslationByRatio_partition (translation : List Char)
    (texts : List (List Char)) (h : 0 < (texts.map List.length).sum) :
    (splitTranslationByRatio translation texts).length = texts.length ∧
    (splitTranslationByRatio translation texts).flatten = translation := by
  have hne : texts ≠ [] := by
    rintro rfl
    simp at h
  unfold splitTranslationByRatio
  rw [if_neg (by omega)]
  exact strGo_spec translation _ texts translation hne

/-- Witness for C7 at a concrete translation and two one-char members. -/
theorem splitTranslationByRatio_partition_witness :
    0 < (([['a'], ['b']] : List (List Char)).map List.length).sum ∧
    ((splitTranslationByRatio ("xyzw".data) [['a'], ['b']]).length =
        ([['a'], ['b']] : List (List Char)).length ∧
      (splitTranslationByRatio ("xyzw".data) [['a'], ['b']]).flatten = "xyzw".data) :=
  ⟨by decide, splitTranslationByRatio_partition ("xyzw".data) [['a'], ['b']] (by decide)⟩

/-! ## C3 counterexample -/

set_option maxRecDepth 200000 in
/-- C3 counterexample: the 1003-char group `gCex` (sentences of 1001 and
1 chars) is split into parts of 1001 and 1 chars — the first part exceeds
1000 chars — and the concatenation of the parts differs from the original
text even after discarding all whitespace, because the sentence
terminator is dropped. -/
theorem split_over_limit_counterexample :
    ((splitLongTextSegments [gCex]).map fun s => (s.partIndex, s.text.length)) =
      [(0, 1001), (1, 1)] ∧
    ¬ (∀ s ∈ splitLongTextSegments [gCex], s.text.length ≤ 1000) ∧
    ((splitLongTextSegments [gCex]).map Seg.text).flatten.filter (fun c => !isWs c) ≠
      gCex.text.filter (fun c => !isWs c) := by
  refine ⟨by decide, by decide, by decide⟩

/-! ## C8: cache bound and key uniqueness -/

/-- A single put preserves the cache invariant: size within the maximum
and pairwise-distinct keys. -/
theorem cacheTranslation_inv (m : Cache) (t : List Char) (s : Settings)
    (tr : List Char) (h1 : m.length ≤ cacheMaxSize)
    (h2 : (m.map Prod.fst).Nodup) :
    (cacheTranslation m t s tr).length ≤ cacheMaxSize ∧
    ((cacheTranslation m t s tr).map Prod.fst).Nodup := by
  unfold cacheTranslation mapSet
  generalize generateCacheKey t s = k
  by_cases hk : m.any fun p => p.1 = k
  · have hkeys :
        (m.map fun p => if p.1 = k then (k, tr) else p).map Prod.fst =
          m.map Prod.fst := by
      rw [List.map_map]
      apply List.map_congr_left
      intro p _
      by_cases hp : p.1 = k <;> simp [hp]
    have hlen :
        (m.map fun p => if p.1 = k then (k, tr) else p).length = m.length :=
      List.length_map _ _
    rw [if_pos hk, if_neg (by omega), hlen, hkeys]
    exact ⟨h1, h2⟩
  · have hnotmem : k ∉ m.map Prod.fst := by
      intro hmem
      obtain ⟨p, hp, hpe⟩ := List.mem_map.mp hmem
      exact (List.any_eq_false.mp (Bool.eq_false_iff.mpr hk) p hp) (by simp [hpe])
    have hnodup2 : ((m ++ [(k, tr)]).map Prod.fst).Nodup := by
      have hpair : ∀ x : List Char, (k, x) ∉ m :=
        fun x hx => hnotmem (List.mem_map_of_mem Prod.fst hx)
      rw [List.map_append, List.nodup_append_comm]
      simpa using ⟨hpair, h2⟩
    rw [if_neg hk]
    by_cases hover : (m ++ [(k, tr)]).length > cacheMaxSize
    · rw [if_pos hover]
      unfold cleanupTranslationCache
      rw [if_pos hover]
      constructor
      · simp only [List.length_drop]
        omega
      · exact hnodup2.sublist ((List.drop_sublist _ _).map Prod.fst)
    · rw [if_neg hover]
      exact ⟨by omega, hnodup2⟩

/-- C8: after any sequence of puts from the empty cache, the store holds
at most `cacheMaxSize = 1000` entries and at most one entry per key. -/
theorem cache_bounded (ops : List (List Char × Settings × List Char)) :
    (runPuts ops).length ≤ cacheMaxSize ∧ ((runPuts ops).map Prod.fst).Nodup := by
  unfold runPuts
  suffices h : ∀ m : Cache, m.length ≤ cacheMaxSize → (m.map Prod.fst).Nodup →
      (ops.foldl (fun m o => cacheTranslation m o.1 o.2.1 o.2.2) m).length ≤ cacheMaxSize ∧
      ((ops.foldl (fun m o => cacheTranslation m o.1 o.2.1 o.2.2) m).map Prod.fst).Nodup by
    exact h [] (by simp [cacheMaxSize]) (by simp)
  induction ops with
  | nil => intro m h1 h2; exact ⟨h1, h2⟩
  | cons o rest ih =>
    intro m h1 h2
    have step := cacheTranslation_inv m o.1 o.2.1 o.2.2 h1 h2
    exact ih _ step.1 step.2

/-! ## C9: the concurrency bound -/

/-- C9: in every state reachable from a job start, the number of running
tasks never exceeds the pool's concurrency limit: `processQueue` starts a
task only when `activeRequests < maxConcurrency`. -/
theorem pool_concurrency_bound (maxC : Nat) (tasks : List Nat) (s : PoolState)
    (h : PoolReach (initPool maxC tasks) s) :
    s.running.length ≤ s.maxConcurrency := by
  induction h with
  | refl => simp [initPool]
  | step _ hstep ih =>
    cases hstep with
    | submit t rest hp => simpa using ih
    | start t rest hlt hq => simpa using hlt
    | complete t ht =>
      exact le_trans (List.Sublist.length_le (List.erase_sublist _ _)) ih

/-- Witness for C9 at the initial state of a five-worker pool. -/
theorem pool_concurrency_bound_witness :
    PoolReach (initPool 5 [0, 1, 2]) (initPool 5 [0, 1, 2]) ∧
    (initPool 5 [0, 1, 2]).running.length ≤ (initPool 5 [0, 1, 2]).maxConcurrency :=
  ⟨PoolReach.refl _,
   pool_concurrency_bound 5 [0, 1, 2] _ (PoolReach.refl _)⟩

/-! ## C2: split parts can settle and be applied out of `partIndex`
order -/

/-- C2: `translatePage` submits the two split parts of one logical group
(part indices 0 and 1) to the concurrent pool together, and the pool can
complete — and hence apply — part 1 before part 0: the state with
completion log `[1, 0]` is reachable. The orchestrator does not await one
part before starting the next. -/
theorem split_parts_out_of_order :
    ∃ s : PoolState, PoolReach (initPool 5 [0, 1]) s ∧ s.compLog = [1, 0] := by
  refine ⟨⟨5, [], [], [], [0, 1], [1, 0]⟩, ?_, rfl⟩
  have r1 : PoolReach (initPool 5 [0, 1]) ⟨5, [1], [0], [], [], []⟩ :=
    PoolReach.step (PoolReach.refl _) (PoolStep.submit _ 0 [1] rfl)
  have r2 : PoolReach (initPool 5 [0, 1]) ⟨5, [], [0, 1], [], [], []⟩ :=
    PoolReach.step r1 (PoolStep.submit _ 1 [] rfl)
  have r3 : PoolReach (initPool 5 [0, 1]) ⟨5, [], [1], [0], [0], []⟩ :=
    PoolReach.step r2 (PoolStep.start _ 0 [1] (by decide) rfl)
  have r4 : PoolReach (initPool 5 [0, 1]) ⟨5, [], [], [0, 1], [0, 1], []⟩ :=
    PoolReach.step r3 (PoolStep.start _ 1 [] (by decide) rfl)
  have r5 : PoolReach (initPool 5 [0, 1]) ⟨5, [], [], [0], [0, 1], [1]⟩ :=
    PoolReach.step r4 (PoolStep.complete _ 1 (by decide))
  exact PoolReach.step r5 (PoolStep.complete _ 0 (by decide))

/-! ## C1 counterexample -/

set_option maxRecDepth 200000 in
/-- C1 counterexample: on the four-node input `demoElems`, the node
`demoD` (whose 1002-char text forces a split) appears in the owned-node
lists of two output segments, and the concatenation of the output
segments' owned nodes lists the node ids in order `[0, 2, 1, 3, 3]` — the
grouping pulled node 2 ahead of node 1 and the split repeated node 3 — so
neither "exactly one segment per node" nor traversal-order concatenation
holds for `optimizeContentSegmentation`. -/
theorem segmentation_ownership_counterexample :
    ownedCount demoD (optimizeContentSegmentation demoElems) = 2 ∧
    ((optimizeContentSegmentation demoElems).flatMap fun s => s.elements.map Elem.id) =
      [0, 2, 1, 3, 3] ∧
    (demoElems.map Elem.id) = [0, 1, 2, 3] := by
  refine ⟨by decide, by decide, by decide⟩

/-! ## C1 amended: exactly-once ownership at the grouping stage -/

/-- Every element is related to itself: the DOM distance is 0. -/
theorem areElementsRelated_self (e : Elem) : areElementsRelated e e = true := by
  unfold areElementsRelated calculateDOMDistance
  simp

/-- A member of a blank-line join is no longer than the join. -/
theorem joinBlank_length_ge (t : List Char) :
    ∀ ts : List (List Char), t ∈ ts → t.length ≤ (joinBlank ts).length := by
  intro ts
  induction ts with
  | nil => simp
  | cons u rest ih =>
    intro ht
    cases rest with
    | nil =>
      rw [List.mem_singleton.mp ht]
      simp [joinBlank]
    | cons v rest' =>
      rcases List.mem_cons.mp ht with rfl | hmem
      · simp [joinBlank]
      · have := ih hmem
        simp only [joinBlank, List.length_append, List.length_cons]
        omega

/-- Appending one segment to the accumulator adds one owning segment
exactly when the new segment owns `x`. -/
theorem ownedCount_append (x : Elem) (acc : List Seg) (s : Seg) :
    ownedCount x (acc ++ [s]) =
      ownedCount x acc + (if x ∈ s.elements then 1 else 0) := by
  unfold ownedCount
  rw [List.filter_append, List.length_append]
  by_cases h : x ∈ s.elements <;> simp [h]

/-- An unvisited element of the input is in its own related-elements
filter. -/
theorem mem_related_self (all visited : List Elem) (e : Elem)
    (he : e ∈ all) (hev : e ∉ visited) :
    e ∈ all.filter fun el =>
      !(decide (el ∈ visited)) &&
        decide (el.containerId = e.containerId) && areElementsRelated e el :=
  List.mem_filter.mpr ⟨he, by simp [hev, areElementsRelated_self]⟩

/-- Members of the related-elements filter are unvisited. -/
theorem related_not_visited {all visited : List Elem} {e x : Elem}
    (hx : x ∈ all.filter fun el =>
      !(decide (el ∈ visited)) &&
        decide (el.containerId = e.containerId) && areElementsRelated e el) :
    x ∉ visited := by
  have h := (List.mem_filter.mp hx).2
  simp only [Bool.and_eq_true, Bool.not_eq_true', decide_eq_false_iff_not] at h
  exact h.1.1

/-- Loop invariant for `gebcGo`: if the accumulator owns `x` exactly when
`x` is visited, and `x` is still to process or already visited, then the
final group list owns `x` exactly once. `x` ranges over elements with
non-empty trimmed text. -/
theorem gebcGo_owned (all : List Elem) (x : Elem) (hx : x ∈ all)
    (htx : 0 < (trim x.text).length) :
    ∀ (toProcess visited : List Elem) (acc : List Seg),
      (∀ y ∈ toProcess, y ∈ all) →
      ownedCount x acc = (if x ∈ visited then 1 else 0) →
      (x ∈ toProcess ∨ x ∈ visited) →
      ownedCount x (gebcGo all toProcess visited acc) = 1 := by
  intro toProcess
  induction toProcess with
  | nil =>
    intro visited acc _ hinv hdisj
    rcases hdisj with h | h
    · simp at h
    · simpa [gebcGo, h] using hinv
  | cons e rest ih =>
    intro visited acc htp hinv hdisj
    have hrest : ∀ y ∈ rest, y ∈ all := fun y hy => htp y (List.mem_cons_of_mem e hy)
    have he : e ∈ all := htp e (List.mem_cons_self e rest)
    rw [gebcGo]
    by_cases hev : e ∈ visited
    · rw [if_pos hev]
      refine ih visited acc hrest hinv ?_
      rcases hdisj with h | h
      · rcases List.mem_cons.mp h with rfl | hmem
        · exact Or.inr hev
        · exact Or.inl hmem
      · exact Or.inr h
    · rw [if_neg hev]
      by_cases hlen :
          (all.filter fun el =>
            !(decide (el ∈ visited)) &&
              decide (el.containerId = e.containerId) &&
                areElementsRelated e el).length > 1
      · rw [if_pos hlen]
        by_cases hcomb :
            (joinBlank ((((all.filter fun el =>
              !(decide (el ∈ visited)) &&
                decide (el.containerId = e.containerId) &&
                  areElementsRelated e el).map fun el => trim el.text).filter
                    fun t => t.length > 0))).length > 0
        · rw [if_pos hcomb]
          refine ih _ _ hrest ?_ ?_
          · rw [ownedCount_append, hinv]
            by_cases hxr : x ∈ all.filter fun el =>
                !(decide (el ∈ visited)) &&
                  decide (el.containerId = e.containerId) &&
                    areElementsRelated e el
            · have hxv : x ∉ visited := related_not_visited hxr
              simp [hxr, hxv]
            · by_cases hxv : x ∈ visited <;> simp [hxr, hxv]
          · rcases hdisj with h | h
            · rcases List.mem_cons.mp h with rfl | hmem
              · exact Or.inr (List.mem_append_right _
                  (mem_related_self all visited x he hev))
              · exact Or.inl hmem
            · exact Or.inr (List.mem_append_left _ h)
        · rw [if_neg hcomb]
          refine ih visited acc hrest hinv ?_
          rcases hdisj with h | h
          · rcases List.mem_cons.mp h with rfl | hmem
            · exfalso
              apply hcomb
              have hmem1 : trim x.text ∈ ((all.filter fun el =>
                  !(decide (el ∈ visited)) &&
                    decide (el.containerId = x.containerId) &&
                      areElementsRelated x el).map fun el => trim el.text) :=
                List.mem_map_of_mem _ (mem_related_self all visited x he hev)
              have hmem2 : trim x.text ∈ ((all.filter fun el =>
                  !(decide (el ∈ visited)) &&
                    decide (el.containerId = x.containerId) &&
                      areElementsRelated x el).map fun el =>
                        trim el.text).filter (fun t => t.length > 0) :=
                List.mem_filter.mpr ⟨hmem1, by simpa using htx⟩
              have := joinBlank_length_ge (trim x.text) _ hmem2
              omega
            · exact Or.inl hmem
          · exact Or.inr h
      · rw [if_neg hlen]
        by_cases htre : (trim e.text).length > 0
        · rw [if_pos htre]
          refine ih _ _ hrest ?_ ?_
          · rw [ownedCount_append, hinv]
            by_cases hxe : x = e
            · subst hxe
              simp [hev]
            · have : x ∉ ([e] : List Elem) := by simp [hxe]
              by_cases hxv : x ∈ visited <;>
                simp [List.mem_append, hxv, hxe, List.mem_singleton]
          · rcases hdisj with h | h
            · rcases List.mem_cons.mp h with rfl | hmem
              · exact Or.inr (List.mem_append_right _ (List.mem_cons_self x []))
              · exact Or.inl hmem
            · exact Or.inr (List.mem_append_left _ h)
        · rw [if_neg htre]
          refine ih visited acc hrest hinv ?_
          rcases hdisj with h | h
          · rcases List.mem_cons.mp h with rfl | hmem
            · exact absurd htx (by omega)
            · exact Or.inl hmem
          · exact Or.inr h

/-- C1 amended: at the grouping stage every input node with non-empty
trimmed text is owned by exactly one segment of
`groupElementsByContainer` — no loss, no duplication. (The later
splitting stage repeats a split group's owned-node list in each of its
parts, and a grouped segment pulls related later nodes ahead of
intervening unrelated nodes, so the final concatenation follows group
order; see the counterexample.) -/
theorem grouping_owned_once (elements : List Elem) (x : Elem)
    (hx : x ∈ elements) (htx : 0 < (trim x.text).length) :
    ownedCount x (groupElementsByContainer elements) = 1 := by
  unfold groupElementsByContainer
  exact gebcGo_owned elements x hx htx elements [] []
    (fun y hy => hy) (by simp [ownedCount]) (Or.inl hx)

/-- Witness for C1's amended theorem on two lone nodes. -/
theorem grouping_owned_once_witness :
    wElem1 ∈ [wElem1, wElem2] ∧ 0 < (trim wElem1.text).length ∧
    ownedCount wElem1 (groupElementsByContainer [wElem1, wElem2]) = 1 :=
  ⟨by decide, by decide,
   grouping_owned_once [wElem1, wElem2] wElem1 (by decide) (by decide)⟩

/-! ## C3 amended: Scenario B, proved symbolically -/

theorem head?_replicate_pos (n : Nat) (h : 0 < n) (c : Char) :
    (List.replicate n c).head? = some c := by
  cases n with
  | zero => omega
  | succ m => rw [List.replicate_succ]; rfl

theorem head?_append_replicate (n : Nat) (h : 0 < n) (c : Char) (r : List Char) :
    (List.replicate n c ++ r).head? = some c := by
  rw [List.head?_append, head?_replicate_pos n h c]
  rfl

theorem getLast?_replicate_pos (n : Nat) (h : 0 < n) (c : Char) :
    (List.replicate n c).getLast? = some c := by
  rw [← List.head?_reverse, List.reverse_replicate, head?_replicate_pos n h c]

theorem getLast?_append_cons_replicate (X : List Char) (x c : Char) (n : Nat)
    (h : 0 < n) : (X ++ x :: List.replicate n c).getLast? = some c := by
  rw [← List.head?_reverse, List.reverse_append, List.reverse_cons,
    List.reverse_replicate, List.append_assoc]
  exact head?_append_replicate n h c _

/-- `trim` is the identity on a text whose first and last characters are
not whitespace. -/
theorem trim_eq_self (l : List Char)
    (h1 : ∀ c, l.head? = some c → isWs c = false)
    (h2 : ∀ c, l.getLast? = some c → isWs c = false) : trim l = l := by
  unfold trim
  rcases l with _ | ⟨a, as⟩
  · rfl
  · have ha : isWs a = false := h1 a rfl
    rw [List.dropWhile_cons, ha]
    simp only [Bool.false_eq_true, if_false]
    obtain ⟨b, bs, hb⟩ : ∃ b bs, (a :: as).reverse = b :: bs := by
      cases hrev : (a :: as).reverse with
      | nil => exact absurd hrev (by simp)
      | cons b bs => exact ⟨b, bs, rfl⟩
    have hbl : (a :: as).getLast? = some b := by
      rw [← List.head?_reverse, hb]; rfl
    have hwb : isWs b = false := h2 b hbl
    rw [hb, List.dropWhile_cons, hwb]
    simp only [Bool.false_eq_true, if_false]
    rw [← hb, List.reverse_reverse]

theorem trim_replicate_of_nonWs (n : Nat) (c : Char) (h : isWs c = false) :
    trim (List.replicate n c) = List.replicate n c := by
  cases n with
  | zero => rfl
  | succ m =>
    refine trim_eq_self _ (fun d hd => ?_) (fun d hd => ?_)
    · rw [head?_replicate_pos (m + 1) (Nat.succ_pos m) c] at hd
      rwa [← Option.some.inj hd]
    · rw [getLast?_replicate_pos (m + 1) (Nat.succ_pos m) c] at hd
      rwa [← Option.some.inj hd]

/-- Splitting skips over a terminator-free prefix, accumulating it. -/
theorem splitOnEnders_nonenders (l : List Char)
    (h : ∀ c ∈ l, sentenceEnder c = false) :
    ∀ (rest cur : List Char),
      splitOnEnders (l ++ rest) cur = splitOnEnders rest (l.reverse ++ cur) := by
  induction l with
  | nil => intro rest cur; simp
  | cons c l ih =>
    intro rest cur
    have hc : sentenceEnder c = false := h c (List.mem_cons_self c l)
    have hl : ∀ x ∈ l, sentenceEnder x = false :=
      fun x hx => h x (List.mem_cons_of_mem c hx)
    rw [List.cons_append, splitOnEnders, hc]
    simp only [Bool.false_eq_true, if_false]
    rw [ih hl rest (c :: cur)]
    simp [List.append_assoc]

theorem splitOnEnders_ender (c : Char) (h : sentenceEnder c = true)
    (rest cur : List Char) :
    splitOnEnders (c :: rest) cur = cur.reverse :: splitOnEnders rest [] := by
  rw [splitOnEnders, h]
  simp

/-- Splitting the Scenario B paragraph: `n` sentence bodies and a final
empty field after the last terminator. -/
theorem splitOnEnders_para (n : Nat) :
    splitOnEnders ((List.replicate n (s119 ++ ['.'])).flatten) [] =
      List.replicate n s119 ++ [[]] := by
  induction n with
  | zero => simp [splitOnEnders]
  | succ m ih =>
    rw [List.replicate_succ, List.flatten_cons, List.append_assoc,
      splitOnEnders_nonenders s119
        (fun x hx => by rw [List.eq_of_mem_replicate hx]; rfl),
      List.singleton_append,
      splitOnEnders_ender '.' rfl, ih, List.replicate_succ]
    simp [s119, List.reverse_replicate]

theorem spart_length : ∀ k : Nat, (spart (k + 1)).length = 120 * (k + 1) - 1 := by
  intro k
  induction k with
  | zero => simp [spart, s119]
  | succ m ih =>
    rw [show m + 1 + 1 = m + 2 from rfl, spart, List.length_append, ih]
    simp [s119]
    omega

theorem spart_head? : ∀ k : Nat, (spart (k + 1)).head? = some 'a' := by
  intro k
  induction k with
  | zero => exact head?_replicate_pos 119 (by omega) 'a'
  | succ m ih =>
    rw [show m + 1 + 1 = m + 2 from rfl, spart, List.head?_append, ih]
    rfl

theorem spart_getLast? : ∀ k : Nat, (spart (k + 1)).getLast? = some 'a' := by
  intro k
  cases k with
  | zero => exact getLast?_replicate_pos 119 (by omega) 'a'
  | succ m => exact getLast?_append_cons_replicate _ ' ' 'a' 119 (by omega)

theorem trim_spart (k : Nat) : trim (spart (k + 1)) = spart (k + 1) := by
  refine trim_eq_self _ (fun d hd => ?_) (fun d hd => ?_)
  · rw [spart_head? k] at hd
    rw [← Option.some.inj hd]
    decide
  · rw [spart_getLast? k] at hd
    rw [← Option.some.inj hd]
    decide

/-- First sentence of a fresh run: the accumulator starts as the
sentence. -/
theorem gather_start (s : List Char) (rest : List (List Char)) :
    gatherSplitParts (s :: rest) [] = gatherSplitParts rest s := by
  rw [gatherSplitParts]
  simp

/-- A sentence that fits is appended with a single joining space. -/
theorem gather_extend (s : List Char) (rest : List (List Char))
    (cur : List Char) (hc : 0 < cur.length)
    (h : cur.length + s.length ≤ 1000) :
    gatherSplitParts (s :: rest) cur = gatherSplitParts rest (cur ++ ' ' :: s) := by
  rw [gatherSplitParts, if_neg (by omega), if_neg (by omega)]

/-- A sentence that overflows flushes the trimmed run. -/
theorem gather_flush (s : List Char) (rest : List (List Char))
    (cur : List Char) (h1 : cur.length + s.length > 1000)
    (h2 : 0 < cur.length) :
    gatherSplitParts (s :: rest) cur = trim cur :: gatherSplitParts rest s := by
  rw [gatherSplitParts, if_pos ⟨h1, h2⟩]

/-- The non-empty trimmed remainder becomes the last part. -/
theorem gather_last (cur : List Char) (h : 0 < (trim cur).length) :
    gatherSplitParts [] cur = [trim cur] := by
  rw [gatherSplitParts, if_pos h]

theorem s119_length : s119.length = 119 := by simp [s119]

theorem spart8_length : (spart 8).length = 959 := by simpa using spart_length 7

theorem spart4_length : (spart 4).length = 479 := by simpa using spart_length 3

theorem trim_spart8 : trim (spart 8) = spart 8 := by simpa using trim_spart 7

theorem trim_spart4 : trim (spart 4) = spart 4 := by simpa using trim_spart 3

/-- Sentences 2..8 of a run fit under the 1000-char cap and extend the
accumulated text. -/
theorem gather_step_spart (j : Nat) (h1 : 1 ≤ j) (h2 : j ≤ 7)
    (rest : List (List Char)) :
    gatherSplitParts (s119 :: rest) (spart j) =
      gatherSplitParts rest (spart (j + 1)) := by
  obtain ⟨m, rfl⟩ : ∃ m, j = m + 1 := ⟨j - 1, by omega⟩
  rw [gather_extend s119 rest (spart (m + 1))
    (by rw [spart_length]; omega)
    (by rw [spart_length, s119_length]; omega)]
  rfl

/-- The ninth sentence of a run overflows: the 959-char run is flushed. -/
theorem gather_flush_spart (rest : List (List Char)) :
    gatherSplitParts (s119 :: rest) (spart 8) =
      trim (spart 8) :: gatherSplitParts rest (spart 1) := by
  rw [gather_flush s119 rest (spart 8)
    (by rw [spart8_length, s119_length]; omega)
    (by rw [spart8_length]; omega)]
  rfl

/-- The 20 uniform sentences of Scenario B pack into runs of 8, 8 and 4
sentences. -/
theorem gather2400 :
    gatherSplitParts (List.replicate 20 s119) [] = [spart 8, spart 8, spart 4] := by
  calc gatherSplitParts (List.replicate 20 s119) []
      = gatherSplitParts (List.replicate 19 s119) (spart 1) := by
        rw [show List.replicate 20 s119 = s119 :: List.replicate 19 s119 from rfl,
          gather_start]
        rfl
    _ = gatherSplitParts (List.replicate 18 s119) (spart 2) := by
        rw [show List.replicate 19 s119 = s119 :: List.replicate 18 s119 from rfl,
          gather_step_spart 1 (by omega) (by omega)]
    _ = gatherSplitParts (List.replicate 17 s119) (spart 3) := by
        rw [show List.replicate 18 s119 = s119 :: List.replicate 17 s119 from rfl,
          gather_step_spart 2 (by omega) (by omega)]
    _ = gatherSplitParts (List.replicate 16 s119) (spart 4) := by
        rw [show List.replicate 17 s119 = s119 :: List.replicate 16 s119 from rfl,
          gather_step_spart 3 (by omega) (by omega)]
    _ = gatherSplitParts (List.replicate 15 s119) (spart 5) := by
        rw [show List.replicate 16 s119 = s119 :: List.replicate 15 s119 from rfl,
          gather_step_spart 4 (by omega) (by omega)]
    _ = gatherSplitParts (List.replicate 14 s119) (spart 6) := by
        rw [show List.replicate 15 s119 = s119 :: List.replicate 14 s119 from rfl,
          gather_step_spart 5 (by omega) (by omega)]
    _ = gatherSplitParts (List.replicate 13 s119) (spart 7) := by
        rw [show List.replicate 14 s119 = s119 :: List.replicate 13 s119 from rfl,
          gather_step_spart 6 (by omega) (by omega)]
    _ = gatherSplitParts (List.replicate 12 s119) (spart 8) := by
        rw [show List.replicate 13 s119 = s119 :: List.replicate 12 s119 from rfl,
          gather_step_spart 7 (by omega) (by omega)]
    _ = trim (spart 8) :: gatherSplitParts (List.replicate 11 s119) (spart 1) := by
        rw [show List.replicate 12 s119 = s119 :: List.replicate 11 s119 from rfl,
          gather_flush_spart]
    _ = trim (spart 8) :: gatherSplitParts (List.replicate 10 s119) (spart 2) := by
        rw [show List.replicate 11 s119 = s119 :: List.replicate 10 s119 from rfl,
          gather_step_spart 1 (by omega) (by omega)]
    _ = trim (spart 8) :: gatherSplitParts (List.replicate 9 s119) (spart 3) := by
        rw [show List.replicate 10 s119 = s119 :: List.replicate 9 s119 from rfl,
          gather_step_spart 2 (by omega) (by omega)]
    _ = trim (spart 8) :: gatherSplitParts (List.replicate 8 s119) (spart 4) := by
        rw [show List.replicate 9 s119 = s119 :: List.replicate 8 s119 from rfl,
          gather_step_spart 3 (by omega) (by omega)]
    _ = trim (spart 8) :: gatherSplitParts (List.replicate 7 s119) (spart 5) := by
        rw [show List.replicate 8 s119 = s119 :: List.replicate 7 s119 from rfl,
          gather_step_spart 4 (by omega) (by omega)]
    _ = trim (spart 8) :: gatherSplitParts (List.replicate 6 s119) (spart 6) := by
        rw [show List.replicate 7 s119 = s119 :: List.replicate 6 s119 from rfl,
          gather_step_spart 5 (by omega) (by omega)]
    _ = trim (spart 8) :: gatherSplitParts (List.replicate 5 s119) (spart 7) := by
        rw [show List.replicate 6 s119 = s119 :: List.replicate 5 s119 from rfl,
          gather_step_spart 6 (by omega) (by omega)]
    _ = trim (spart 8) :: gatherSplitParts (List.replicate 4 s119) (spart 8) := by
        rw [show List.replicate 5 s119 = s119 :: List.replicate 4 s119 from rfl,
          gather_step_spart 7 (by omega) (by omega)]
    _ = trim (spart 8) :: trim (spart 8) ::
          gatherSplitParts (List.replicate 3 s119) (spart 1) := by
        rw [show List.replicate 4 s119 = s119 :: List.replicate 3 s119 from rfl,
          gather_flush_spart]
    _ = trim (spart 8) :: trim (spart 8) ::
          gatherSplitParts (List.replicate 2 s119) (spart 2) := by
        rw [show List.replicate 3 s119 = s119 :: List.replicate 2 s119 from rfl,
          gather_step_spart 1 (by omega) (by omega)]
    _ = trim (spart 8) :: trim (spart 8) ::
          gatherSplitParts (List.replicate 1 s119) (spart 3) := by
        rw [show List.replicate 2 s119 = s119 :: List.replicate 1 s119 from rfl,
          gather_step_spart 2 (by omega) (by omega)]
    _ = trim (spart 8) :: trim (spart 8) ::
          gatherSplitParts ([] : List (List Char)) (spart 4) := by
        rw [show List.replicate 1 s119 = s119 :: ([] : List (List Char)) from rfl,
          gather_step_spart 3 (by omega) (by omega)]
    _ = [spart 8, spart 8, spart 4] := by
        rw [gather_last (spart 4) (by rw [trim_spart4, spart4_length]; omega),
          trim_spart8, trim_spart4]

theorem para2400_length : para2400.length = 2400 := by
  rw [para2400, List.length_flatten, List.map_replicate, List.sum_replicate,
    List.length_append, s119_length]
  norm_num

/-- `splitIntoSentences` on the Scenario B paragraph: 20 sentence bodies
of 119 chars (the terminators are consumed, the trailing empty field is
filtered out, and the ≥ 2 sentence count avoids the chunking fallback). -/
theorem sentences2400 : splitIntoSentences para2400 = List.replicate 20 s119 := by
  unfold splitIntoSentences para2400
  rw [splitOnEnders_para 20, List.filter_append]
  have hkeep : (List.replicate 20 s119).filter (fun s => (trim s).length > 0) =
      List.replicate 20 s119 := by
    refine List.filter_eq_self.mpr fun a ha => ?_
    rw [List.eq_of_mem_replicate ha]
    rw [show trim s119 = s119 from trim_replicate_of_nonWs 119 'a' rfl]
    simp [s119]
  have hdrop : ([[]] : List (List Char)).filter (fun s => (trim s).length > 0) =
      [] := rfl
  rw [hkeep, hdrop, List.append_nil, if_neg]
  simp

/-- C3 amended: the 2400-char, 20-sentence Scenario B paragraph is
emitted as exactly 3 `split` segments with `partIndex` 0, 1, 2 and texts
of 959, 959 and 479 chars, each at most 1000 chars. (In general a part
can exceed 1000 chars when a single sentence does, and concatenating
parts loses the terminator characters; see the counterexample.) -/
theorem scenarioB_split :
    para2400.length = 2400 ∧
    ((splitLongTextSegments [g2400]).map fun s => (s.partIndex, s.text.length)) =
      [(0, 959), (1, 959), (2, 479)] ∧
    ((splitLongTextSegments [g2400]).all fun s => s.text.length ≤ 1000) = true := by
  have hsplit : splitLongTextSegments [g2400] =
      [⟨SegKind.split, g2400.elements, spart 8, 0, 0⟩,
       ⟨SegKind.split, g2400.elements, spart 8, 1, 0⟩,
       ⟨SegKind.split, g2400.elements, spart 4, 2, 0⟩] := by
    unfold splitLongTextSegments
    rw [show ([g2400].enum) = [(0, g2400)] from rfl]
    simp only [List.flatMap_cons, List.flatMap_nil, List.append_nil]
    rw [if_neg (by rw [show g2400.text = para2400 from rfl, para2400_length]; omega)]
    rw [show g2400.text = para2400 from rfl, show para2400 = para2400 from rfl]
    rw [show splitIntoSentences para2400 = List.replicate 20 s119 from sentences2400,
      gather2400]
    rfl
  refine ⟨para2400_length, ?_, ?_⟩
  · rw [hsplit]
    simp [spart8_length, spart4_length]
  · rw [hsplit]
    simp [List.all, spart8_length, spart4_length]

end Tify
